import Mathlib

/-!
Verification of the expression evaluator (src/ast.rs) and tokenizer
(src/tokenizer.rs). Rust f64 values are modelled by `F64`: a rational
number for finite values, plus the non-finite values inf, -inf and NaN.
Rational arithmetic is exact, so IEEE-754 rounding and overflow to
infinity are not modelled; every concrete value appearing in the claims
is a small number on which double arithmetic is exact. The sign of zero
is not modelled (IEEE equality identifies 0.0 and -0.0, which is the
only way the evaluator inspects values).
-/

/-- Model of a Rust f64 value: a finite value is an exact rational. -/
inductive F64 where
  | finite (q : ℚ)
  | inf
  | negInf
  | nan
deriving DecidableEq

namespace F64

/-- IEEE comparison of a value with literal 0.0, as in the source's
`divisor == 0.0`: NaN and the infinities compare unequal to zero. -/
def isZero : F64 → Bool
  | finite q => decide (q = 0)
  | _ => false

/-- IEEE negation, for the `Negative` node. -/
def fneg : F64 → F64
  | finite q => finite (-q)
  | inf => negInf
  | negInf => inf
  | nan => nan

/-- IEEE addition: NaN propagates, inf + (-inf) is NaN, finite addition
is exact in this model. -/
def fadd : F64 → F64 → F64
  | nan, _ => nan
  | _, nan => nan
  | inf, negInf => nan
  | negInf, inf => nan
  | inf, _ => inf
  | _, inf => inf
  | negInf, _ => negInf
  | _, negInf => negInf
  | finite a, finite b => finite (a + b)

/-- IEEE subtraction, defined as addition of the negation (exact in
IEEE-754 for doubles). -/
def fsub (x y : F64) : F64 := fadd x (fneg y)

/-- IEEE multiplication: NaN propagates, 0 * inf is NaN, signs of
infinite products follow the sign of the finite factor. -/
def fmul : F64 → F64 → F64
  | nan, _ => nan
  | _, nan => nan
  | inf, inf => inf
  | inf, negInf => negInf
  | negInf, inf => negInf
  | negInf, negInf => inf
  | inf, finite b => if b = 0 then nan else if 0 < b then inf else negInf
  | negInf, finite b => if b = 0 then nan else if 0 < b then negInf else inf
  | finite a, inf => if a = 0 then nan else if 0 < a then inf else negInf
  | finite a, negInf => if a = 0 then nan else if 0 < a then negInf else inf
  | finite a, finite b => finite (a * b)

/-- IEEE division: NaN propagates, inf/inf is NaN, finite/finite with a
nonzero divisor is exact; division of a nonzero finite value by zero
gives a signed infinity (unreachable from `eval`, which guards the
divisor), 0/0 gives NaN. -/
def fdiv : F64 → F64 → F64
  | nan, _ => nan
  | _, nan => nan
  | inf, inf => nan
  | inf, negInf => nan
  | negInf, inf => nan
  | negInf, negInf => nan
  | inf, finite b => if 0 ≤ b then inf else negInf
  | negInf, finite b => if 0 ≤ b then negInf else inf
  | finite _, inf => finite 0
  | finite _, negInf => finite 0
  | finite a, finite b =>
    if b = 0 then (if a = 0 then nan else if 0 < a then inf else negInf)
    else finite (a / b)

/-- Model of Rust f64::powf. The IEEE special cases (exponent zero, base
one, NaN operands, infinite operands, negative base with non-integer
exponent, zero base) follow the IEEE-754 pow rules; a finite base with an
integer exponent gives the exact rational power. A positive base other
than one with a non-integer exponent has an irrational value in general,
which this rational model cannot represent; that branch is mapped to NaN
and no theorem relies on it. -/
def powf (x y : F64) : F64 :=
  match y with
  | nan => if x = finite 1 then finite 1 else nan
  | inf =>
    match x with
    | nan => nan
    | inf => inf
    | negInf => inf
    | finite b => if b = 1 ∨ b = -1 then finite 1
                  else if -1 < b ∧ b < 1 then finite 0 else inf
  | negInf =>
    match x with
    | nan => nan
    | inf => finite 0
    | negInf => finite 0
    | finite b => if b = 1 ∨ b = -1 then finite 1
                  else if -1 < b ∧ b < 1 then inf else finite 0
  | finite e =>
    if e = 0 then finite 1
    else
      match x with
      | nan => nan
      | inf => if 0 < e then inf else finite 0
      | negInf =>
        if e.den = 1 ∧ e.num % 2 ≠ 0 then (if 0 < e then negInf else finite 0)
        else (if 0 < e then inf else finite 0)
      | finite b =>
        if b = 1 then finite 1
        else if e.den = 1 then
          (if b = 0 then (if 0 < e then finite 0 else inf)
           else finite (b ^ e.num))
        else if b < 0 then nan
        else if b = 0 then (if 0 < e then finite 0 else inf)
        else nan

/-- Truncation of a rational toward zero (the fractional part is
discarded, not rounded). -/
def ratTrunc (q : ℚ) : ℤ := if 0 ≤ q then ⌊q⌋ else -⌊-q⌋

/-- Largest 64-bit signed integer, i64::MAX. -/
def I64MAX : ℤ := 2 ^ 63 - 1

/-- Smallest 64-bit signed integer, i64::MIN. -/
def I64MIN : ℤ := -(2 ^ 63)

/-- Model of Rust's `as i64` cast on an f64: saturating conversion. NaN
becomes 0, values whose truncation exceeds i64::MAX (including +inf)
become i64::MAX, values whose truncation is below i64::MIN (including
-inf) become i64::MIN, and every other value is truncated toward zero. -/
def toI64 : F64 → ℤ
  | nan => 0
  | inf => I64MAX
  | negInf => I64MIN
  | finite q =>
    let t := ratTrunc q
    if I64MAX < t then I64MAX else if t < I64MIN then I64MIN else t

/-- Model of Rust's `as f64` cast on an i64. Conversion of integers of
magnitude above 2^53 rounds in IEEE-754; this exact model ignores that
rounding (no claim involves such magnitudes). -/
def ofI64 (i : ℤ) : F64 := finite (i : ℚ)

end F64

/-- The AST node type of src/ast.rs. -/
inductive Node where
  | And (a b : Node)
  | Or (a b : Node)
  | Add (a b : Node)
  | Subtract (a b : Node)
  | Multiply (a b : Node)
  | Divide (a b : Node)
  | Caret (a b : Node)
  | Negative (a : Node)
  | Number (i : F64)
deriving DecidableEq

/-- The evaluation error of src/ast.rs. The source constructs exactly one
error, the boxed string reading Division by zero; it is modelled as this
one-variant enum. -/
inductive EvalError where
  | DivisionByZero
deriving DecidableEq

/-- The evaluator of src/ast.rs: `eval`. Each `?` of the source is a
bind on `Except`; in `Divide` the divisor (right child) is evaluated
first and compared with 0.0 before the numerator is evaluated. -/
def eval : Node → Except EvalError F64
  | .Number i => .ok i
  | .Add e1 e2 =>
    (eval e1).bind fun v1 => (eval e2).bind fun v2 => .ok (F64.fadd v1 v2)
  | .Subtract e1 e2 =>
    (eval e1).bind fun v1 => (eval e2).bind fun v2 => .ok (F64.fsub v1 v2)
  | .Multiply e1 e2 =>
    (eval e1).bind fun v1 => (eval e2).bind fun v2 => .ok (F64.fmul v1 v2)
  | .Divide e1 e2 =>
    (eval e2).bind fun divisor =>
      if divisor.isZero then .error .DivisionByZero
      else (eval e1).bind fun v1 => .ok (F64.fdiv v1 divisor)
  | .Caret e1 e2 =>
    (eval e1).bind fun v1 => (eval e2).bind fun v2 => .ok (F64.powf v1 v2)
  | .Negative e =>
    (eval e).bind fun v => .ok (F64.fneg v)
  | .And e1 e2 =>
    (eval e1).bind fun v1 => (eval e2).bind fun v2 =>
      .ok (F64.ofI64 (Int.land (F64.toI64 v1) (F64.toI64 v2)))
  | .Or e1 e2 =>
    (eval e1).bind fun v1 => (eval e2).bind fun v2 =>
      .ok (F64.ofI64 (Int.lor (F64.toI64 v1) (F64.toI64 v2)))

/-- Instrumentation of `eval` recording the `Number` leaves in the order
the source's control flow reaches them: for each node the operands'
traces are concatenated in the order of the recursive `eval` calls in
src/ast.rs, and a subtree skipped by an early return (a `?` failure, or
the division-by-zero return before the numerator is evaluated)
contributes nothing. -/
def evalTrace : Node → List F64
  | .Number i => [i]
  | .Add a b =>
    evalTrace a ++ (match eval a with | .error _ => [] | .ok _ => evalTrace b)
  | .Subtract a b =>
    evalTrace a ++ (match eval a with | .error _ => [] | .ok _ => evalTrace b)
  | .Multiply a b =>
    evalTrace a ++ (match eval a with | .error _ => [] | .ok _ => evalTrace b)
  | .Divide a b =>
    evalTrace b ++
      (match eval b with
       | .error _ => []
       | .ok d => if d.isZero then [] else evalTrace a)
  | .Caret a b =>
    evalTrace a ++ (match eval a with | .error _ => [] | .ok _ => evalTrace b)
  | .Negative a => evalTrace a
  | .And a b =>
    evalTrace a ++ (match eval a with | .error _ => [] | .ok _ => evalTrace b)
  | .Or a b =>
    evalTrace a ++ (match eval a with | .error _ => [] | .ok _ => evalTrace b)

/-- Modelled from the spec: the Token enum of the token module, which is
not present under src/; its variants are those constructed by
src/tokenizer.rs and listed in section 3 of the spec (a numeric literal
carrying an f64, the seven operator symbols, the two parentheses, and the
end-of-input marker). -/
inductive Token where
  | Num (v : F64)
  | Add
  | Subtract
  | Multiply
  | Divide
  | Caret
  | And
  | Or
  | LeftParen
  | RightParen
  | EOF
deriving DecidableEq

/-- Value of a list of ASCII digit characters read in base 10. -/
def natOfDigits (s : List Char) : ℕ :=
  s.foldl (fun acc c => 10 * acc + (c.toNat - 48)) 0

/-- Exact decimal value of a literal of the shape digits, an optional
decimal point, digits: the integer part plus the fractional part scaled
by a power of ten. -/
def ratOfDecimal (s : List Char) : ℚ :=
  let intPart := s.takeWhile (fun c => c ≠ '.')
  let fracPart := (s.dropWhile (fun c => c ≠ '.')).drop 1
  (natOfDigits intPart : ℚ) + (natOfDigits fracPart : ℚ) / 10 ^ fracPart.length

/-- Model of Rust str::parse::<f64> restricted to the strings the
tokenizer can accumulate (an ASCII digit followed by ASCII digits and
decimal points): parsing succeeds exactly when at most one decimal point
is present, and the value is the exact decimal value (IEEE rounding of a
literal to the nearest double is not modelled; every literal appearing in
the claims is exactly representable). -/
def parseF64 (s : List Char) : Option F64 :=
  if s.count '.' ≤ 1 then some (F64.finite (ratOfDecimal s)) else none

namespace Tokenizer

/-- Characters consumed by the number-scanning loop of
Tokenizer::parse_number: ASCII digits and the decimal point. -/
def isNumChar (c : Char) : Bool := c.isDigit || c = '.'

/-- Model of Tokenizer::parse_number of src/tokenizer.rs. The Peekable
character iterator is the list of remaining characters; `first_digit`
has already been consumed by `next`. The loop greedily moves every
following digit or decimal point from the iterator into the accumulated
string, which is then parsed as an f64; a parse failure yields none. -/
def parse_number (st : List Char) (first_digit : Char) :
    Option Token × List Char :=
  let num_str := first_digit :: st.takeWhile isNumChar
  match parseF64 num_str with
  | some v => (some (Token.Num v), st.dropWhile isNumChar)
  | none => (none, st.dropWhile isNumChar)

/-- Model of Tokenizer::next of src/tokenizer.rs (the Iterator
implementation). It returns the produced Option<Token> together with the
iterator state left behind: a digit is consumed and handed to
parse_number, each recognized symbol is consumed and mapped to its
token, whitespace is consumed and the loop continues, an unrecognized
character is consumed and the call returns none, and an exhausted
iterator yields the EOF token. -/
def next : List Char → Option Token × List Char
  | [] => (some Token.EOF, [])
  | c :: rest =>
    if '0' ≤ c ∧ c ≤ '9' then parse_number rest c
    else if c = '+' then (some Token.Add, rest)
    else if c = '-' then (some Token.Subtract, rest)
    else if c = '*' then (some Token.Multiply, rest)
    else if c = '/' then (some Token.Divide, rest)
    else if c = '^' then (some Token.Caret, rest)
    else if c = '&' then (some Token.And, rest)
    else if c = '|' then (some Token.Or, rest)
    else if c = '(' then (some Token.LeftParen, rest)
    else if c = ')' then (some Token.RightParen, rest)
    else if c = ' ' ∨ c = '\t' ∨ c = '\n' then next rest
    else (none, rest)

/-- Whitespace characters skipped by Tokenizer::next. -/
def isWhitespaceChar (c : Char) : Bool := c = ' ' || c = '\t' || c = '\n'

/-- A character the tokenizer recognizes: an ASCII digit, one of the
nine operator and punctuation symbols, or whitespace. -/
def isRecognized (c : Char) : Bool :=
  ('0' ≤ c && c ≤ '9') ||
  (c = '+' || c = '-' || c = '*' || c = '/' || c = '^' ||
   c = '&' || c = '|' || c = '(' || c = ')') ||
  isWhitespaceChar c

/-- Driver running `next` repeatedly (with fuel, since `next` is a
step function on the iterator state): collects the produced tokens,
stopping after an EOF token or on a none result, as a consumer of the
Iterator would. -/
def tokenizeN : ℕ → List Char → List Token
  | 0, _ => []
  | n + 1, cs =>
    match next cs with
    | (some Token.EOF, _) => [Token.EOF]
    | (some t, rest) => t :: tokenizeN n rest
    | (none, _) => []

end Tokenizer

instance : DecidableEq (Except EvalError F64) := fun a b =>
  match a, b with
  | .ok x, .ok y => decidable_of_iff (x = y) (by simp)
  | .error x, .error y => decidable_of_iff (x = y) (by simp)
  | .ok _, .error _ => isFalse (fun h => Except.noConfusion h)
  | .error _, .ok _ => isFalse (fun h => Except.noConfusion h)

/-- Claim C1: for every AST Divide(a, b), if evaluating b succeeds with a
value exactly equal to zero then eval(Divide(a, b)) fails with a
DivisionByZero error; on every successful evaluation of a Divide node the
divisor was checked nonzero, so eval never returns a value produced by
dividing by zero; in particular evaluating Divide(Number(5.0),
Number(0.0)) fails with DivisionByZero. -/
theorem claim_c1_divide_by_zero :
    (∀ a b : Node, eval b = .ok (F64.finite 0) →
      eval (.Divide a b) = .error .DivisionByZero) ∧
    (∀ (a b : Node) (x : F64), eval (.Divide a b) = .ok x →
      ∃ v d : F64, eval a = .ok v ∧ eval b = .ok d ∧ d.isZero = false ∧
        x = F64.fdiv v d) ∧
    eval (.Divide (.Number (F64.finite 5)) (.Number (F64.finite 0))) =
      .error .DivisionByZero := by
  refine ⟨?_, ?_, by decide⟩
  · intro a b h
    simp [eval, h, F64.isZero, Except.bind]
  · intro a b x h
    rw [eval] at h
    cases hb : eval b with
    | error e => rw [hb] at h; exact absurd h (by simp [Except.bind])
    | ok d =>
      rw [hb] at h
      simp only [Except.bind] at h
      by_cases hz : d.isZero
      · rw [if_pos hz] at h; exact absurd h (by simp)
      · rw [if_neg hz] at h
        cases ha : eval a with
        | error e => rw [ha] at h; exact absurd h (by simp)
        | ok v =>
          rw [ha] at h
          simp only [Except.ok.injEq] at h
          exact ⟨v, d, rfl, rfl, by simpa using hz, h.symm⟩

/-- Witness for claim C1 at the concrete numerator 5.0 and divisor
0.0. -/
theorem claim_c1_divide_by_zero_witness :
    eval (.Divide (.Number (F64.finite 5)) (.Number (F64.finite 0))) =
      .error .DivisionByZero :=
  claim_c1_divide_by_zero.1 (.Number (F64.finite 5)) (.Number (F64.finite 0))
    rfl

/-- Claim C2: eval of And(a, b) and Or(a, b) evaluates each operand to a
float, converts each to a 64-bit signed integer by truncation toward
zero (the fractional part is discarded, not rounded, as the values 3.5
and -3.5 show), applies the bitwise operation on the integers and
converts the integer result back to a float; in particular
eval(And(Number(6.0), Number(3.0))) = Ok(2.0) and eval(Or(Number(6.0),
Number(3.0))) = Ok(7.0). -/
theorem claim_c2_bitwise_and_or :
    (∀ (a b : Node) (x y : F64), eval a = .ok x → eval b = .ok y →
      eval (.And a b) =
        .ok (F64.ofI64 (Int.land (F64.toI64 x) (F64.toI64 y))) ∧
      eval (.Or a b) =
        .ok (F64.ofI64 (Int.lor (F64.toI64 x) (F64.toI64 y)))) ∧
    F64.toI64 (F64.finite (7 / 2)) = 3 ∧
    F64.toI64 (F64.finite (-(7 / 2))) = -3 ∧
    eval (.And (.Number (F64.finite 6)) (.Number (F64.finite 3))) =
      .ok (F64.finite 2) ∧
    eval (.Or (.Number (F64.finite 6)) (.Number (F64.finite 3))) =
      .ok (F64.finite 7) := by
  refine ⟨?_, ?_, ?_, by decide, by decide⟩
  · intro a b x y hx hy
    constructor <;> simp [eval, hx, hy, Except.bind]
  · simp [F64.toI64, F64.ratTrunc, F64.I64MAX, F64.I64MIN]
    norm_num
  · simp [F64.toI64, F64.ratTrunc, F64.I64MAX, F64.I64MIN]
    norm_num

/-- Witness for claim C2 at the concrete operands 6.0 and 3.0. -/
theorem claim_c2_bitwise_and_or_witness :
    eval (.And (.Number (F64.finite 6)) (.Number (F64.finite 3))) =
      .ok (F64.ofI64 (Int.land (F64.toI64 (F64.finite 6))
        (F64.toI64 (F64.finite 3)))) ∧
    eval (.Or (.Number (F64.finite 6)) (.Number (F64.finite 3))) =
      .ok (F64.ofI64 (Int.lor (F64.toI64 (F64.finite 6))
        (F64.toI64 (F64.finite 3)))) :=
  claim_c2_bitwise_and_or.1 (.Number (F64.finite 6)) (.Number (F64.finite 3))
    (F64.finite 6) (F64.finite 3) rfl rfl

/-- Claim C9: eval of Divide(a, b) evaluates the divisor b before the
numerator a (the trace of every Divide node starts with the trace of its
right child), and when the divisor evaluates to exactly zero the
DivisionByZero error is returned without the numerator ever being
evaluated: for every numerator a, including one whose own evaluation
would fail, eval(Divide(a, Number(0.0))) returns DivisionByZero and the
evaluation trace contains only the divisor leaf. -/
theorem claim_c9_divisor_first :
    (∀ a b : Node, ∃ t : List F64, evalTrace (.Divide a b) = evalTrace b ++ t) ∧
    (∀ a : Node,
      eval (.Divide a (.Number (F64.finite 0))) = .error .DivisionByZero ∧
      evalTrace (.Divide a (.Number (F64.finite 0))) = [F64.finite 0]) := by
  constructor
  · intro a b
    exact ⟨_, rfl⟩
  · intro a
    constructor <;> simp [eval, evalTrace, F64.isZero, Except.bind]

/-- Claim C5: eval of Caret(a, b) succeeds with the value of a raised to
the power of the value of b whenever both operands evaluate; the power
function follows the IEEE pow rules, so fractional and negative
exponents are allowed and a NaN result (such as the negative base -2.0
with the fractional exponent 0.5) is returned as a success, not an
error; in particular eval(Caret(Number(2.0), Number(3.0))) = Ok(8.0). -/
theorem claim_c5_caret_powf :
    (∀ (a b : Node) (x y : F64), eval a = .ok x → eval b = .ok y →
      eval (.Caret a b) = .ok (F64.powf x y)) ∧
    F64.powf (F64.finite 2) (F64.finite 3) = F64.finite 8 ∧
    eval (.Caret (.Number (F64.finite 2)) (.Number (F64.finite 3))) =
      .ok (F64.finite 8) ∧
    F64.powf (F64.finite (-2)) (F64.finite (1 / 2)) = F64.nan ∧
    eval (.Caret (.Number (F64.finite (-2))) (.Number (F64.finite (1 / 2)))) =
      .ok F64.nan := by
  have hpow : F64.powf (F64.finite 2) (F64.finite 3) = F64.finite 8 := by
    simp [F64.powf]
    norm_num
  have hnan : F64.powf (F64.finite (-2)) (F64.finite (1 / 2)) = F64.nan := by
    simp [F64.powf]
    norm_num
  have hgen : ∀ (a b : Node) (x y : F64), eval a = .ok x → eval b = .ok y →
      eval (.Caret a b) = .ok (F64.powf x y) := by
    intro a b x y hx hy
    simp [eval, hx, hy, Except.bind]
  refine ⟨hgen, hpow, ?_, hnan, ?_⟩
  · rw [hgen (.Number (F64.finite 2)) (.Number (F64.finite 3))
      (F64.finite 2) (F64.finite 3) rfl rfl, hpow]
  · rw [hgen (.Number (F64.finite (-2))) (.Number (F64.finite (1 / 2)))
      (F64.finite (-2)) (F64.finite (1 / 2)) rfl rfl, hnan]

/-- Witness for claim C5 at the concrete operands 2.0 and 3.0. -/
theorem claim_c5_caret_powf_witness :
    eval (.Caret (.Number (F64.finite 2)) (.Number (F64.finite 3))) =
      .ok (F64.powf (F64.finite 2) (F64.finite 3)) :=
  claim_c5_caret_powf.1 (.Number (F64.finite 2)) (.Number (F64.finite 3))
    (F64.finite 2) (F64.finite 3) rfl rfl

/-- Claim C10: the float-to-integer conversion applied to each And and
Or operand is the saturating cast of Rust: NaN converts to 0, a value
greater than the maximum 64-bit signed integer (and +inf) converts to
that maximum, a value below the minimum (and -inf) converts to that
minimum; eval never fails on an And or Or node whose operands evaluate,
whatever their values, finite or not. -/
theorem claim_c10_saturating_cast :
    F64.toI64 F64.nan = 0 ∧
    F64.toI64 F64.inf = F64.I64MAX ∧
    F64.toI64 F64.negInf = F64.I64MIN ∧
    (∀ q : ℚ, (F64.I64MAX : ℚ) < q → F64.toI64 (F64.finite q) = F64.I64MAX) ∧
    (∀ q : ℚ, q < (F64.I64MIN : ℚ) → F64.toI64 (F64.finite q) = F64.I64MIN) ∧
    eval (.And (.Number F64.nan) (.Number (F64.finite 7))) =
      .ok (F64.finite 0) ∧
    (∀ (a b : Node) (x y : F64), eval a = .ok x → eval b = .ok y →
      (∃ z, eval (.And a b) = .ok z) ∧ (∃ z, eval (.Or a b) = .ok z)) := by
  have hMAX : F64.I64MAX = 9223372036854775807 := by norm_num [F64.I64MAX]
  have hMIN : F64.I64MIN = -9223372036854775808 := by norm_num [F64.I64MIN]
  refine ⟨rfl, rfl, rfl, ?_, ?_, by decide, ?_⟩
  · intro q hq
    have h0 : (0 : ℚ) ≤ q := by
      refine le_trans ?_ (le_of_lt hq)
      norm_num [F64.I64MAX]
    have hfl : F64.I64MAX ≤ ⌊q⌋ := Int.le_floor.mpr (le_of_lt hq)
    rw [hMAX] at hfl
    simp only [F64.toI64, F64.ratTrunc, if_pos h0, hMAX, hMIN]
    split_ifs with h1 h2 <;> omega
  · intro q hq
    have h0 : ¬ (0 : ℚ) ≤ q := by
      intro h
      have : (F64.I64MIN : ℚ) < 0 := by norm_num [F64.I64MIN]
      linarith
    have hfl : -F64.I64MIN ≤ ⌊-q⌋ := by
      refine Int.le_floor.mpr ?_
      push_cast
      linarith
    rw [hMIN] at hfl
    simp only [F64.toI64, F64.ratTrunc, if_neg h0, hMAX, hMIN]
    split_ifs with h1 h2 <;> omega
  · intro a b x y hx hy
    exact ⟨⟨F64.ofI64 (Int.land x.toI64 y.toI64),
        by simp [eval, hx, hy, Except.bind]⟩,
      ⟨F64.ofI64 (Int.lor x.toI64 y.toI64),
        by simp [eval, hx, hy, Except.bind]⟩⟩

/-- The evaluation discipline claim C3 asserts of a binary constructor:
the left child is evaluated first (its trace opens the node's trace), a
failure of the left child propagates without the right child being
evaluated, and a failure of the right child after a successful left
child propagates. -/
def LeftFirstEval (C : Node → Node → Node) : Prop :=
  (∀ a b : Node, ∃ t : List F64, evalTrace (C a b) = evalTrace a ++ t) ∧
  (∀ (a b : Node) (er : EvalError), eval a = .error er →
    eval (C a b) = .error er ∧ evalTrace (C a b) = evalTrace a) ∧
  (∀ (a b : Node) (v : F64) (er : EvalError),
    eval a = .ok v → eval b = .error er → eval (C a b) = .error er)

/-- A binary constructor whose eval case binds the left child, then the
right child, then returns, satisfies LeftFirstEval. -/
theorem leftFirstEval_of_shape (C : Node → Node → Node) (f : F64 → F64 → F64)
    (heval : ∀ a b, eval (C a b) =
      (eval a).bind fun v1 => (eval b).bind fun v2 => .ok (f v1 v2))
    (htrace : ∀ a b, evalTrace (C a b) =
      evalTrace a ++
        match eval a with | .error _ => [] | .ok _ => evalTrace b) :
    LeftFirstEval C := by
  refine ⟨fun a b => ⟨_, htrace a b⟩, ?_, ?_⟩
  · intro a b er h
    rw [heval, htrace, h]
    simp [Except.bind]
  · intro a b v er ha hb
    rw [heval, ha, hb]
    simp [Except.bind]

/-- Counterexample to claim C3: eval does not evaluate the left operand
of a Divide node first. Evaluating Divide(Number(1.0), Number(2.0))
visits the leaf 2.0 (the right child) before the leaf 1.0, not the
other way around. -/
theorem claim_c3_counterexample :
    evalTrace (.Divide (.Number (F64.finite 1)) (.Number (F64.finite 2))) =
      [F64.finite 2, F64.finite 1] ∧
    evalTrace (.Divide (.Number (F64.finite 1)) (.Number (F64.finite 2))) ≠
      [F64.finite 1, F64.finite 2] := by
  constructor <;> decide

/-- Claim C3 as amended: for Add, Subtract, Multiply, Caret, And and Or,
eval evaluates the left operand before the right operand and a failure
from evaluating a child propagates immediately without evaluating the
sibling subtree, so when both children would fail the error returned is
the left child's error; Divide instead evaluates its right operand (the
divisor) first with the same immediate propagation, so there the error
returned when both children would fail is the right child's error. -/
theorem claim_c3_evaluation_order :
    LeftFirstEval .Add ∧ LeftFirstEval .Subtract ∧ LeftFirstEval .Multiply ∧
    LeftFirstEval .Caret ∧ LeftFirstEval .And ∧ LeftFirstEval .Or ∧
    (∀ a b : Node, ∃ t : List F64,
      evalTrace (.Divide a b) = evalTrace b ++ t) ∧
    (∀ (a b : Node) (er : EvalError), eval b = .error er →
      eval (.Divide a b) = .error er ∧
      evalTrace (.Divide a b) = evalTrace b) ∧
    (∀ (a b : Node) (ea eb : EvalError),
      eval a = .error ea → eval b = .error eb →
      eval (.Divide a b) = .error eb) := by
  refine ⟨leftFirstEval_of_shape _ _ (fun a b => rfl) (fun a b => rfl),
    leftFirstEval_of_shape _ _ (fun a b => rfl) (fun a b => rfl),
    leftFirstEval_of_shape _ _ (fun a b => rfl) (fun a b => rfl),
    leftFirstEval_of_shape _ _ (fun a b => rfl) (fun a b => rfl),
    leftFirstEval_of_shape _ _ (fun a b => rfl) (fun a b => rfl),
    leftFirstEval_of_shape _ _ (fun a b => rfl) (fun a b => rfl),
    fun a b => ⟨_, rfl⟩, ?_, ?_⟩
  · intro a b er h
    rw [eval, evalTrace, h]
    simp [Except.bind]
  · intro a b ea eb ha hb
    rw [eval, hb]
    simp [Except.bind]

/-- Witness for claim C3 as amended: a failing left child of an Add node
propagates its error and leaves the right subtree unevaluated, at the
concrete tree Add(Divide(Number(1.0), Number(0.0)), Number(7.0)). -/
theorem claim_c3_evaluation_order_witness :
    eval (.Add (.Divide (.Number (F64.finite 1)) (.Number (F64.finite 0)))
        (.Number (F64.finite 7))) = .error .DivisionByZero ∧
    evalTrace (.Add (.Divide (.Number (F64.finite 1)) (.Number (F64.finite 0)))
        (.Number (F64.finite 7))) =
      evalTrace (.Divide (.Number (F64.finite 1)) (.Number (F64.finite 0))) :=
  claim_c3_evaluation_order.1.2.1
    (.Divide (.Number (F64.finite 1)) (.Number (F64.finite 0)))
    (.Number (F64.finite 7)) .DivisionByZero (by decide)

/-- Witness for claim C10 at non-finite concrete operands NaN and
+inf. -/
theorem claim_c10_saturating_cast_witness :
    (∃ z, eval (.And (.Number F64.nan) (.Number F64.inf)) = .ok z) ∧
    (∃ z, eval (.Or (.Number F64.nan) (.Number F64.inf)) = .ok z) :=
  claim_c10_saturating_cast.2.2.2.2.2.2 (.Number F64.nan) (.Number F64.inf)
    F64.nan F64.inf rfl rfl

/-- Skipping one whitespace character leaves the result of
Tokenizer::next unchanged. -/
theorem Tokenizer.next_whitespace (w : Char) (l : List Char)
    (h : Tokenizer.isWhitespaceChar w = true) :
    Tokenizer.next (w :: l) = Tokenizer.next l := by
  simp only [Tokenizer.isWhitespaceChar, Bool.or_eq_true,
    decide_eq_true_eq] at h
  rcases h with (h | h) | h <;> subst h <;> rfl

/-- Claim C4: when Tokenizer::next reaches a character that is not a
digit, not a recognized operator or punctuation symbol and not
whitespace, the call fails immediately by yielding none (which
terminates the iteration): the character is not silently skipped and
tokenization does not continue past it. Any run of whitespace before the
offending character is skipped as usual. -/
theorem claim_c4_unrecognized_character :
    ∀ (ws : List Char) (c : Char) (cs : List Char),
      (∀ w ∈ ws, Tokenizer.isWhitespaceChar w = true) →
      Tokenizer.isRecognized c = false →
      Tokenizer.next (ws ++ c :: cs) = (none, cs) := by
  intro ws
  induction ws with
  | nil =>
    intro c cs _ hc
    have hnd : ¬('0' ≤ c ∧ c ≤ '9') := by
      intro hcc
      exact absurd hc (by simp [Tokenizer.isRecognized, hcc.1, hcc.2])
    have h1 : ¬(c = '+') := by
      intro he; subst he; exact absurd hc (by decide)
    have h2 : ¬(c = '-') := by
      intro he; subst he; exact absurd hc (by decide)
    have h3 : ¬(c = '*') := by
      intro he; subst he; exact absurd hc (by decide)
    have h4 : ¬(c = '/') := by
      intro he; subst he; exact absurd hc (by decide)
    have h5 : ¬(c = '^') := by
      intro he; subst he; exact absurd hc (by decide)
    have h6 : ¬(c = '&') := by
      intro he; subst he; exact absurd hc (by decide)
    have h7 : ¬(c = '|') := by
      intro he; subst he; exact absurd hc (by decide)
    have h8 : ¬(c = '(') := by
      intro he; subst he; exact absurd hc (by decide)
    have h9 : ¬(c = ')') := by
      intro he; subst he; exact absurd hc (by decide)
    have hnw : ¬(c = ' ' ∨ c = '\t' ∨ c = '\n') := by
      intro hcc
      rcases hcc with h | h | h <;> (subst h; exact absurd hc (by decide))
    rw [List.nil_append, Tokenizer.next, if_neg hnd, if_neg h1, if_neg h2,
      if_neg h3, if_neg h4, if_neg h5, if_neg h6, if_neg h7, if_neg h8,
      if_neg h9, if_neg hnw]
  | cons w ws ih =>
    intro c cs hws hc
    rw [List.cons_append,
      Tokenizer.next_whitespace w _ (hws w (List.mem_cons_self w ws))]
    exact ih c cs (fun x hx => hws x (List.mem_cons_of_mem w hx)) hc

/-- Witness for claim C4: next on the input consisting of a space, the
unrecognized character @ and a digit fails at the @ after skipping the
space, consuming the @ and not continuing to the digit. -/
theorem claim_c4_unrecognized_character_witness :
    Tokenizer.next [' ', '@', '1'] = (none, ['1']) :=
  claim_c4_unrecognized_character [' '] '@' ['1'] (by decide) (by decide)

set_option maxHeartbeats 1000000 in
/-- Claim C6: once the tokenizer's character input is exhausted, after
skipping any trailing whitespace, next() returns the EOF token, and it
leaves the empty state behind so that every subsequent call returns EOF
again: whenever next() produces EOF the remaining state is empty and the
following call produces EOF once more. -/
theorem claim_c6_eof_idempotent :
    Tokenizer.next ([] : List Char) = (some Token.EOF, []) ∧
    (∀ ws : List Char, (∀ c ∈ ws, Tokenizer.isWhitespaceChar c = true) →
      Tokenizer.next ws = (some Token.EOF, [])) ∧
    (∀ cs rest : List Char, Tokenizer.next cs = (some Token.EOF, rest) →
      rest = [] ∧ Tokenizer.next rest = (some Token.EOF, [])) := by
  have hnil : Tokenizer.next ([] : List Char) = (some Token.EOF, []) := rfl
  refine ⟨hnil, ?_, ?_⟩
  · intro ws
    induction ws with
    | nil => intro _; exact hnil
    | cons w l ih =>
      intro h
      rw [Tokenizer.next_whitespace w l (h w (List.mem_cons_self w l))]
      exact ih (fun x hx => h x (List.mem_cons_of_mem w hx))
  · intro cs
    induction cs with
    | nil =>
      intro rest h
      rw [hnil] at h
      obtain ⟨-, h2⟩ := Prod.mk.injEq .. ▸ h
      exact ⟨h2.symm, h2.symm ▸ hnil⟩
    | cons c l ih =>
      intro rest h
      rw [Tokenizer.next] at h
      repeat' split at h
      all_goals first
        | (exact ih rest h)
        | (exact absurd h (by simp))
        | (rw [Tokenizer.parse_number] at h
           cases hp : parseF64 (c :: l.takeWhile Tokenizer.isNumChar) <;>
             rw [hp] at h <;> exact absurd h (by simp))

/-- Witness for claim C6: next on input of only whitespace returns EOF
with the empty state. -/
theorem claim_c6_eof_idempotent_witness :
    Tokenizer.next [' ', '\t', '\n'] = (some Token.EOF, []) :=
  claim_c6_eof_idempotent.2.1 [' ', '\t', '\n'] (by decide)

/-- Claim C7: a digit begins a numeric literal: next hands the digit to
parse_number, which greedily consumes the following characters as long
as they are digits or decimal points and parses the accumulated text as
a floating-point value; when the accumulated text has at most one
decimal point the parse succeeds with its exact decimal value, and when
it fails (more than one decimal point, as in 1.2.3) the call yields the
empty, iteration-terminating result none instead of a Num token. -/
theorem claim_c7_number_parsing :
    (∀ (c : Char) (cs : List Char), '0' ≤ c → c ≤ '9' →
      Tokenizer.next (c :: cs) = Tokenizer.parse_number cs c) ∧
    (∀ (c : Char) (cs : List Char),
      (Tokenizer.parse_number cs c).2 = cs.dropWhile Tokenizer.isNumChar ∧
      ((c :: cs.takeWhile Tokenizer.isNumChar).count '.' ≤ 1 →
        (Tokenizer.parse_number cs c).1 =
          some (Token.Num (F64.finite
            (ratOfDecimal (c :: cs.takeWhile Tokenizer.isNumChar))))) ∧
      (1 < (c :: cs.takeWhile Tokenizer.isNumChar).count '.' →
        (Tokenizer.parse_number cs c).1 = none)) ∧
    Tokenizer.next ['1', '.', '2', '.', '3'] = (none, []) ∧
    Tokenizer.next ['1', '.', '5', ')'] =
      (some (Token.Num (F64.finite (3 / 2))), [')']) := by
  refine ⟨?_, ?_, by decide, ?_⟩
  · intro c cs h1 h2
    rw [Tokenizer.next, if_pos ⟨h1, h2⟩]
  · intro c cs
    by_cases h : (c :: cs.takeWhile Tokenizer.isNumChar).count '.' ≤ 1 <;>
      simp [Tokenizer.parse_number, parseF64, h]
  · simp [Tokenizer.next, Tokenizer.parse_number, parseF64, ratOfDecimal,
      natOfDigits, Tokenizer.isNumChar]
    norm_num

/-- Witness for claim C7: next on the malformed literal 1.2.3 delegates
to parse_number. -/
theorem claim_c7_number_parsing_witness :
    Tokenizer.next ('1' :: ['.', '2', '.', '3']) =
      Tokenizer.parse_number ['.', '2', '.', '3'] '1' :=
  claim_c7_number_parsing.1 '1' ['.', '2', '.', '3'] (by decide) (by decide)

/-- Claim C8: tokenizing -5 yields the token sequence Subtract,
Num(5.0), EOF: the minus sign maps to the Subtract operator token and is
never fused with the following digits into a negative literal; and each
of the nine single-character symbols maps to exactly its one
operator or punctuation token, whatever the remaining input. -/
theorem claim_c8_symbol_tokens :
    Tokenizer.tokenizeN 3 ['-', '5'] =
      [Token.Subtract, Token.Num (F64.finite 5), Token.EOF] ∧
    (∀ cs : List Char,
      Tokenizer.next ('+' :: cs) = (some Token.Add, cs) ∧
      Tokenizer.next ('-' :: cs) = (some Token.Subtract, cs) ∧
      Tokenizer.next ('*' :: cs) = (some Token.Multiply, cs) ∧
      Tokenizer.next ('/' :: cs) = (some Token.Divide, cs) ∧
      Tokenizer.next ('^' :: cs) = (some Token.Caret, cs) ∧
      Tokenizer.next ('&' :: cs) = (some Token.And, cs) ∧
      Tokenizer.next ('|' :: cs) = (some Token.Or, cs) ∧
      Tokenizer.next ('(' :: cs) = (some Token.LeftParen, cs) ∧
      Tokenizer.next (')' :: cs) = (some Token.RightParen, cs)) := by
  refine ⟨?_, fun cs => ⟨rfl, rfl, rfl, rfl, rfl, rfl, rfl, rfl, rfl⟩⟩
  simp [Tokenizer.tokenizeN, Tokenizer.next, Tokenizer.parse_number, parseF64,
    ratOfDecimal, natOfDigits, Tokenizer.isNumChar]
